import Mathlib

set_option maxRecDepth 8000

/-!
Verification of the migration pipeline of `migrate_errors.py`.

File contents are modelled as `List Char`.  The Python operations used by the
script are embedded one-to-one: substring membership (`in`), `str.split('\n')`,
`'\n'.join`, `list.insert`, `str.startswith`, `str.lower`, and the specific
`re.sub` calls of the script.  Each regular expression of the script is
compiled by hand into an explicit matcher with exactly the semantics of the
Python `re` engine on that pattern (leftmost, non-overlapping scan; greedy
character classes with the one backtracking step that the pattern
`\x7b colon \s* literal \s* [^]]+ ]\x7d` admits between the second `\s*` and
`[^]]+`).
-/

/-- The regex whitespace class `\s` for text patterns (ASCII part plus the
Unicode whitespace code points the engine recognises). -/
def pySpace (c : Char) : Bool :=
  c == ' ' || c == '\t' || c == '\n' || c == '\r' || c == '\x0b' || c == '\x0c' ||
  c == '\x1c' || c == '\x1d' || c == '\x1e' || c == '\x1f' || c == '\x85' || c == '\xa0' ||
  c == '\u1680' || ('\u2000' ≤ c && c ≤ '\u200a') || c == '\u2028' || c == '\u2029' ||
  c == '\u202f' || c == '\u205f' || c == '\u3000'

/-- Python substring membership `needle in hay`. -/
def strContains : List Char → List Char → Bool
  | [], needle => needle.isEmpty
  | hay@(_ :: t), needle => needle.isPrefixOf hay || strContains t needle

/-- Python `content.split('\n')`. -/
def splitNl : List Char → List (List Char)
  | [] => [[]]
  | c :: t =>
    if c = '\n' then [] :: splitNl t
    else
      match splitNl t with
      | [] => [[c]]
      | l :: ls => (c :: l) :: ls

/-- Python `'\n'.join(lines)`. -/
def joinNl : List (List Char) → List Char
  | [] => []
  | [l] => l
  | l :: ls => l ++ '\n' :: joinNl ls

/-- Python `lines.insert(n, x)` (as a pure function; clamps like Python when
`n` exceeds the length). -/
def insertAt (n : Nat) (x : List Char) (l : List (List Char)) : List (List Char) :=
  l.take n ++ x :: l.drop n

/-- Index of the last element satisfying `p` (the Python script collects all
indices of import lines and keeps the last). -/
def lastIdxWith (p : List Char → Bool) : List (List Char) → Option Nat
  | [] => none
  | l :: t =>
    match lastIdxWith p t with
    | some i => some (i + 1)
    | none => if p l then some 0 else none

/-- Index of the first element satisfying `p` (the Python script scans for the
first package line and breaks). -/
def firstIdxWith (p : List Char → Bool) : List (List Char) → Option Nat
  | [] => none
  | l :: t => if p l then some 0 else (firstIdxWith p t).map (· + 1)

def sentinelImport : List Char := "import org.llm4s.szork.error._".data

def handlingImport : List Char := "import org.llm4s.szork.error.ErrorHandling._".data

def importKw : List Char := "import ".data

def packageKw : List Char := "package ".data

/-- `line.startswith('import ')`. -/
def isImportLine (l : List Char) : Bool := importKw.isPrefixOf l

/-- `line.startswith('package ')`. -/
def isPackageLine (l : List Char) : Bool := packageKw.isPrefixOf l

/-- `add_imports` from `migrate_errors.py`: if the sentinel import is absent,
insert the two import lines after the last import line, else after the first
package line (with a preceding blank line), else leave the content as the
join of its split (the identity). -/
def add_imports (content : List Char) : List Char :=
  if strContains content sentinelImport then content
  else
    let lines := splitNl content
    match lastIdxWith isImportLine lines with
    | some k =>
        joinNl (insertAt (k + 2) handlingImport (insertAt (k + 1) sentinelImport lines))
    | none =>
        match firstIdxWith isPackageLine lines with
        | some i =>
            joinNl (insertAt (i + 3) handlingImport
              (insertAt (i + 2) sentinelImport (insertAt (i + 1) [] lines)))
        | none => joinNl lines

def leftLit : List Char := "Left(".data

/-- Matcher for the pattern wrapping a failure value: the literal `Left(`,
then a greedy nonempty run of characters other than a closing parenthesis,
then a closing parenthesis.  Returns the captured group and the remainder
after the match. -/
def matchLeftAt (s : List Char) : Option (List Char × List Char) :=
  if leftLit.isPrefixOf s then
    let rest := s.drop leftLit.length
    let g := rest.takeWhile (fun c => c != ')')
    match rest.drop g.length with
    | ')' :: r => if g.isEmpty then none else some (g, r)
    | _ => none
  else none

/-- Matcher for the two type-signature patterns: a colon, greedy whitespace,
the literal `lit` (one of the two `Either[...]` openers), greedy whitespace,
a nonempty run of characters other than `]` (the captured success type), and
a `]`.  Since whitespace characters are also not `]`, the engine backtracks
the second whitespace run by exactly one character when the run of non-`]`
characters would otherwise be empty; the `min` below reproduces that. -/
def matchEitherAt (lit : List Char) (s : List Char) : Option (List Char × List Char) :=
  match s with
  | ':' :: t =>
    let t1 := t.dropWhile pySpace
    if lit.isPrefixOf t1 then
      let rest := t1.drop lit.length
      let m := rest.takeWhile (fun c => c != ']')
      match rest.drop m.length with
      | ']' :: r =>
        if m.isEmpty then none
        else some (m.drop (min (rest.takeWhile pySpace).length (m.length - 1)), r)
      | _ => none
    else none
  | _ => none

def eitherStrLit : List Char := "Either[String,".data

def eitherListLit : List Char := "Either[List[String],".data

/-- Matcher for a literal pattern (the logger substitution has no regex
metacharacters, so it is plain text replacement). -/
def matchLitAt (lit : List Char) (s : List Char) : Option (List Char × List Char) :=
  if !lit.isEmpty && lit.isPrefixOf s then some ([], s.drop lit.length) else none

/-- One pass of `re.sub`: scan left to right; at each position either replace
a match and resume after it, or copy one character.  Each of the matchers
above consumes at least one character on success, so fuel equal to the length
of the input (see `reSub`) is never exhausted mid-scan. -/
def reSubF (mt : List Char → Option (List Char × List Char))
    (rep : List Char → List Char) : Nat → List Char → List Char
  | 0, s => s
  | fuel + 1, s =>
    match mt s with
    | some (g, r) => rep g ++ reSubF mt rep fuel r
    | none =>
      match s with
      | [] => []
      | c :: t => c :: reSubF mt rep fuel t

/-- `re.sub(pattern, repl, s)` for the patterns of the script. -/
def reSub (mt : List Char → Option (List Char × List Char))
    (rep : List Char → List Char) (s : List Char) : List Char :=
  reSubF mt rep s.length s

/-- Replacement text of the two signature substitutions. -/
def szorkRepl (g : List Char) : List Char := ": SzorkResult[".data ++ g ++ "]".data

/-- The path-keyword categories of the `Left(...)` rewriting, in the priority
order of the if/elif chain of `migrate_file`. -/
inductive ErrCat
  | persistence
  | parsing
  | validation
  | music
  | audio
  | image
  | network
  | gameState
deriving DecidableEq

/-- The if/elif chain over `filepath.lower()` in `migrate_file`
(`str.lower` modelled for ASCII text by `Char.toLower`). -/
def classifyPath (path : List Char) : ErrCat :=
  let p := path.map Char.toLower
  if strContains p "save".data || strContains p "persistence".data then .persistence
  else if strContains p "parse".data || strContains p "parser".data then .parsing
  else if strContains p "valid".data then .validation
  else if strContains p "music".data then .music
  else if strContains p "tts".data || strContains p "speech".data then .audio
  else if strContains p "image".data then .image
  else if strContains p "network".data || strContains p "api".data then .network
  else .gameState

/-- The category-specific replacement for a matched `Left(...)` group. -/
def leftRepl : ErrCat → List Char → List Char
  | .persistence, g => "Left(PersistenceError(".data ++ g ++ ", \"operation\"))".data
  | .parsing, g => "Left(ParseError(".data ++ g ++ "))".data
  | .validation, g => "Left(ValidationError(List(".data ++ g ++ ")))".data
  | .music, g => "Left(MusicGenerationError(".data ++ g ++ "))".data
  | .audio, g => "Left(AudioGenerationError(".data ++ g ++ "))".data
  | .image, g => "Left(ImageGenerationError(".data ++ g ++ "))".data
  | .network, g => "Left(NetworkError(".data ++ g ++ ", \"service\"))".data
  | .gameState, g => "Left(GameStateError(".data ++ g ++ "))".data

def loggerOld : List Char := "private val logger = LoggerFactory".data

def loggerNew : List Char := "private implicit val logger = LoggerFactory".data

/-- The first signature substitution of `migrate_file`. -/
def subEitherStr (s : List Char) : List Char := reSub (matchEitherAt eitherStrLit) szorkRepl s

/-- The second signature substitution of `migrate_file`. -/
def subEitherList (s : List Char) : List Char := reSub (matchEitherAt eitherListLit) szorkRepl s

/-- The category-specific `Left(...)` substitution of `migrate_file`. -/
def subLeft (cat : ErrCat) (s : List Char) : List Char := reSub matchLeftAt (leftRepl cat) s

/-- The logger substitution of `migrate_file`. -/
def subLogger (s : List Char) : List Char := reSub (matchLitAt loggerOld) (fun _ => loggerNew) s

/-- The migration-need classifier of `migrate_file`. -/
def needs_migration (content : List Char) : Bool :=
  strContains content eitherStrLit || strContains content eitherListLit

/-- The full in-memory transformation of `migrate_file`: import injection,
the two signature substitutions, the context-sensitive `Left(...)`
substitution, and the logger substitution, in the order of the script. -/
def migrateContent (path content : List Char) : List Char :=
  subLogger (subLeft (classifyPath path) (subEitherList (subEitherStr (add_imports content))))

def denySzorkError : List Char := "error/SzorkError.scala".data

def denyErrorHandling : List Char := "error/ErrorHandling.scala".data

/-- `migrate_file`, as a pure function from the file path and the file's
content to the pair (was the file written, resulting on-disk content).  The
script writes the transformed content back and returns `True` exactly when
the transformation changed the content. -/
def migrate_file (path content : List Char) : Bool × List Char :=
  if strContains path denySzorkError || strContains path denyErrorHandling then (false, content)
  else if needs_migration content then
    let c := migrateContent path content
    if c = content then (false, content) else (true, c)
  else (false, content)

/-- Is there a match of `mt` anywhere in `s` (does the regex match zero spans
or not)? -/
def hasMatch (mt : List Char → Option (List Char × List Char)) : List Char → Bool
  | [] => (mt []).isSome
  | s@(_ :: t) => (mt s).isSome || hasMatch mt t

/-- The leftmost match of `mt` in `s`, if any. -/
def firstMatch (mt : List Char → Option (List Char × List Char)) :
    List Char → Option (List Char × List Char)
  | [] => mt []
  | s@(_ :: t) =>
    match mt s with
    | some x => some x
    | none => firstMatch mt t

/-- Number of positions of `s` at which `needle` occurs as a substring. -/
def countSub (needle : List Char) : List Char → Nat
  | [] => if needle.isEmpty then 1 else 0
  | s@(_ :: t) => (if needle.isPrefixOf s then 1 else 0) + countSub needle t

/-! ### Infrastructure lemmas -/

theorem joinNl_cons_cons (a b : List Char) (t : List (List Char)) :
    joinNl (a :: b :: t) = a ++ '\n' :: joinNl (b :: t) := rfl

theorem splitNl_ne_nil (c : List Char) : splitNl c ≠ [] := by
  cases c with
  | nil => simp [splitNl]
  | cons a t =>
    unfold splitNl
    split
    · simp
    · cases h : splitNl t <;> simp

theorem joinNl_splitNl (c : List Char) : joinNl (splitNl c) = c := by
  induction c with
  | nil => rfl
  | cons a t ih =>
    by_cases h : a = '\n'
    · subst h
      have hsp : splitNl ('\n' :: t) = [] :: splitNl t := by
        simp [splitNl]
      rw [hsp]
      cases hs : splitNl t with
      | nil => exact absurd hs (splitNl_ne_nil t)
      | cons l ls =>
        rw [joinNl_cons_cons]
        rw [hs] at ih
        simp [ih]
    · cases hs : splitNl t with
      | nil => exact absurd hs (splitNl_ne_nil t)
      | cons l ls =>
        have hsp : splitNl (a :: t) = (a :: l) :: ls := by
          unfold splitNl
          rw [if_neg h, hs]
        rw [hsp]
        rw [hs] at ih
        cases ls with
        | nil =>
          simp only [joinNl] at ih ⊢
          rw [ih]
        | cons m ms =>
          rw [joinNl_cons_cons] at ih
          rw [joinNl_cons_cons, List.cons_append, ih]

theorem isPrefixOf_append_self (p x : List Char) : p.isPrefixOf (p ++ x) = true := by
  induction p with
  | nil => cases x <;> rfl
  | cons c t ih => simp [List.isPrefixOf, ih]

theorem strContains_cons_of (c : Char) (t p : List Char) (h : strContains t p = true) :
    strContains (c :: t) p = true := by
  unfold strContains
  simp [h]

theorem strContains_append_right (a b p : List Char) (h : strContains b p = true) :
    strContains (a ++ b) p = true := by
  induction a with
  | nil => simpa using h
  | cons c t ih => exact strContains_cons_of c (t ++ b) p ih

theorem strContains_append_self (p x : List Char) : strContains (p ++ x) p = true := by
  cases hp : p ++ x with
  | nil =>
    have : p = [] := by
      cases p with
      | nil => rfl
      | cons c t => simp at hp
    subst this
    simp [strContains]
  | cons c t =>
    rw [← hp]
    cases p with
    | nil =>
      cases x with
      | nil => simp [strContains]
      | cons y ys => simp [strContains, List.isPrefixOf]
    | cons q qs =>
      unfold strContains
      rw [show (q :: qs) ++ x = q :: (qs ++ x) from rfl]
      simp [isPrefixOf_append_self]

theorem strContains_of_mem_joinNl (l : List Char) (ls : List (List Char)) (h : l ∈ ls) :
    strContains (joinNl ls) l = true := by
  induction ls with
  | nil => simp at h
  | cons a t ih =>
    cases t with
    | nil =>
      simp at h
      subst h
      have := strContains_append_self l []
      simpa using this
    | cons b ts =>
      rw [joinNl_cons_cons]
      rcases List.mem_cons.mp h with h1 | h2
      · subst h1
        exact strContains_append_self l ('\n' :: joinNl (b :: ts))
      · exact strContains_append_right a ('\n' :: joinNl (b :: ts)) l
          (strContains_cons_of '\n' (joinNl (b :: ts)) l (ih h2))

theorem lastIdxWith_lt (p : List Char → Bool) (ls : List (List Char)) (k : Nat)
    (h : lastIdxWith p ls = some k) : k < ls.length := by
  induction ls generalizing k with
  | nil => simp [lastIdxWith] at h
  | cons a t ih =>
    unfold lastIdxWith at h
    cases ht : lastIdxWith p t with
    | some i =>
      rw [ht] at h
      simp at h
      subst h
      exact Nat.succ_lt_succ (ih i ht)
    | none =>
      rw [ht] at h
      by_cases hp : p a
      · rw [if_pos hp] at h
        simp at h
        subst h
        simp
      · rw [if_neg hp] at h
        simp at h

theorem firstIdxWith_lt (p : List Char → Bool) (ls : List (List Char)) (k : Nat)
    (h : firstIdxWith p ls = some k) : k < ls.length := by
  induction ls generalizing k with
  | nil => simp [firstIdxWith] at h
  | cons a t ih =>
    unfold firstIdxWith at h
    by_cases hp : p a
    · rw [if_pos hp] at h
      simp at h
      subst h
      simp
    · rw [if_neg hp] at h
      cases ht : firstIdxWith p t with
      | some i =>
        rw [ht] at h
        simp at h
        subst h
        exact Nat.succ_lt_succ (ih i ht)
      | none => rw [ht] at h; simp at h

theorem lastIdxWith_eq_none (p : List Char → Bool) (ls : List (List Char))
    (h : ∀ l ∈ ls, p l = false) : lastIdxWith p ls = none := by
  induction ls with
  | nil => rfl
  | cons a t ih =>
    unfold lastIdxWith
    rw [ih (fun l hl => h l (List.mem_cons_of_mem a hl))]
    rw [h a (List.mem_cons_self a t)]
    simp

theorem firstIdxWith_eq_none (p : List Char → Bool) (ls : List (List Char))
    (h : ∀ l ∈ ls, p l = false) : firstIdxWith p ls = none := by
  induction ls with
  | nil => rfl
  | cons a t ih =>
    unfold firstIdxWith
    rw [h a (List.mem_cons_self a t), ih (fun l hl => h l (List.mem_cons_of_mem a hl))]
    simp

theorem insertAt_zero (x : List Char) (l : List (List Char)) :
    insertAt 0 x l = x :: l := by
  simp [insertAt]

theorem insertAt_succ_cons (n : Nat) (x a : List Char) (t : List (List Char)) :
    insertAt (n + 1) x (a :: t) = a :: insertAt n x t := by
  simp [insertAt]

theorem insertAt_insertAt (x y : List Char) :
    ∀ (k : Nat) (ls : List (List Char)), k < ls.length →
      insertAt (k + 2) y (insertAt (k + 1) x ls) =
        ls.take (k + 1) ++ x :: y :: ls.drop (k + 1) := by
  intro k
  induction k with
  | zero =>
    intro ls h
    cases ls with
    | nil => simp at h
    | cons a t => simp [insertAt]
  | succ n ih =>
    intro ls h
    cases ls with
    | nil => simp at h
    | cons a t =>
      have ht : n < t.length := by simpa using h
      rw [insertAt_succ_cons (n + 1) x a t]
      rw [insertAt_succ_cons (n + 2) y a (insertAt (n + 1) x t)]
      rw [ih t ht]
      simp

theorem strContains_nil_eq (p : List Char) : strContains [] p = p.isEmpty := rfl

theorem strContains_cons_eq (c : Char) (t p : List Char) :
    strContains (c :: t) p = (p.isPrefixOf (c :: t) || strContains t p) := rfl

theorem countSub_nil_eq (p : List Char) :
    countSub p [] = if p.isEmpty then 1 else 0 := rfl

theorem countSub_cons_eq (p : List Char) (c : Char) (t : List Char) :
    countSub p (c :: t) = (if p.isPrefixOf (c :: t) then 1 else 0) + countSub p t := rfl

theorem hasMatch_nil_eq (mt : List Char → Option (List Char × List Char)) :
    hasMatch mt [] = (mt []).isSome := rfl

theorem hasMatch_cons_eq (mt : List Char → Option (List Char × List Char))
    (c : Char) (t : List Char) :
    hasMatch mt (c :: t) = ((mt (c :: t)).isSome || hasMatch mt t) := rfl

theorem reSubF_succ_some (mt : List Char → Option (List Char × List Char))
    (rep : List Char → List Char) (n : Nat) (s g r : List Char)
    (h : mt s = some (g, r)) :
    reSubF mt rep (n + 1) s = rep g ++ reSubF mt rep n r := by
  rw [reSubF.eq_def]
  simp only [h]

theorem reSubF_succ_none_cons (mt : List Char → Option (List Char × List Char))
    (rep : List Char → List Char) (n : Nat) (c : Char) (t : List Char)
    (h : mt (c :: t) = none) :
    reSubF mt rep (n + 1) (c :: t) = c :: reSubF mt rep n t := by
  rw [reSubF.eq_def]
  simp only [h]

theorem reSubF_nil (mt : List Char → Option (List Char × List Char))
    (rep : List Char → List Char) (n : Nat) (h : mt [] = none) :
    reSubF mt rep n [] = [] := by
  cases n with
  | zero => rfl
  | succ m =>
    unfold reSubF
    rw [h]

theorem isPrefixOf_append_nlfree (p : List Char) (hnl : '\n' ∉ p) :
    ∀ (x y : List Char), p.isPrefixOf (x ++ '\n' :: y) = p.isPrefixOf x := by
  induction p with
  | nil => intro x y; cases x <;> rfl
  | cons q p' ih =>
    intro x y
    have hq : q ≠ '\n' := fun h => hnl (h ▸ List.mem_cons_self q p')
    have hnl' : '\n' ∉ p' := fun h => hnl (List.mem_cons_of_mem q h)
    cases x with
    | nil =>
      show (q :: p').isPrefixOf ('\n' :: y) = (q :: p').isPrefixOf []
      have hb : (q == '\n') = false := by simp [hq]
      simp [List.isPrefixOf, hb]
    | cons c x' =>
      show (q :: p').isPrefixOf (c :: (x' ++ '\n' :: y)) = (q :: p').isPrefixOf (c :: x')
      simp only [List.isPrefixOf]
      rw [ih hnl' x' y]

theorem countSub_append_nl (p : List Char) (hp : p ≠ []) (hnl : '\n' ∉ p) :
    ∀ (x y : List Char), countSub p (x ++ '\n' :: y) = countSub p x + countSub p y := by
  intro x
  induction x with
  | nil =>
    intro y
    have hpre : p.isPrefixOf ('\n' :: y) = false := by
      cases p with
      | nil => exact absurd rfl hp
      | cons q p' =>
        have hq : q ≠ '\n' := fun h => hnl (h ▸ List.mem_cons_self q p')
        have hb : (q == '\n') = false := by simp [hq]
        simp [List.isPrefixOf, hb]
    show countSub p ('\n' :: y) = countSub p [] + countSub p y
    rw [countSub_cons_eq, countSub_nil_eq, hpre]
    have hpe : p.isEmpty = false := by
      cases p with
      | nil => exact absurd rfl hp
      | cons q p' => rfl
    rw [hpe]
  | cons c x' ih =>
    intro y
    show countSub p (c :: (x' ++ '\n' :: y)) = countSub p (c :: x') + countSub p y
    rw [countSub_cons_eq, countSub_cons_eq]
    have hpre := isPrefixOf_append_nlfree p hnl (c :: x') y
    simp only [List.cons_append] at hpre
    rw [hpre, ih y]
    omega

theorem countSub_joinNl (p : List Char) (hp : p ≠ []) (hnl : '\n' ∉ p) :
    ∀ ls : List (List Char), countSub p (joinNl ls) = (ls.map (countSub p)).sum := by
  intro ls
  induction ls with
  | nil =>
    have hpe : p.isEmpty = false := by
      cases p with
      | nil => exact absurd rfl hp
      | cons q p' => rfl
    simp [joinNl, countSub_nil_eq, hpe]
  | cons a t ih =>
    cases t with
    | nil => simp [joinNl]
    | cons b ts =>
      rw [joinNl_cons_cons, countSub_append_nl p hp hnl a (joinNl (b :: ts)), ih]
      simp

theorem countSub_eq_zero (p s : List Char) (h : strContains s p = false) :
    countSub p s = 0 := by
  induction s with
  | nil =>
    rw [strContains_nil_eq] at h
    rw [countSub_nil_eq, h]
    simp
  | cons c t ih =>
    rw [strContains_cons_eq] at h
    simp only [Bool.or_eq_false_iff] at h
    rw [countSub_cons_eq, h.1, ih h.2]
    simp

theorem map_sum_insertAt (f : List Char → Nat) (n : Nat) (x : List Char)
    (ls : List (List Char)) :
    ((insertAt n x ls).map f).sum = (ls.map f).sum + f x := by
  unfold insertAt
  rw [List.map_append, List.sum_append, List.map_cons, List.sum_cons]
  conv_rhs => rw [← List.take_append_drop n ls, List.map_append, List.sum_append]
  omega

/-! ### Lemmas about the substitution scanner -/

theorem reSubF_no_match (mt : List Char → Option (List Char × List Char))
    (rep : List Char → List Char) :
    ∀ (fuel : Nat) (s : List Char), hasMatch mt s = false → reSubF mt rep fuel s = s := by
  intro fuel
  induction fuel with
  | zero => intro s _; rfl
  | succ n ih =>
    intro s h
    cases s with
    | nil =>
      rw [hasMatch_nil_eq] at h
      exact reSubF_nil mt rep (n + 1) (Option.not_isSome_iff_eq_none.mp (by simp [h]))
    | cons c t =>
      rw [hasMatch_cons_eq] at h
      simp only [Bool.or_eq_false_iff] at h
      have h1 : mt (c :: t) = none := Option.not_isSome_iff_eq_none.mp (by simp [h.1])
      rw [reSubF_succ_none_cons mt rep n c t h1, ih t h.2]

theorem reSubF_contains_firstMatch (mt : List Char → Option (List Char × List Char))
    (rep : List Char → List Char) (hnil : mt [] = none) :
    ∀ (fuel : Nat) (s g r : List Char), s.length ≤ fuel →
      firstMatch mt s = some (g, r) →
      strContains (reSubF mt rep fuel s) (rep g) = true := by
  intro fuel
  induction fuel with
  | zero =>
    intro s g r hlen hfm
    have hs : s = [] := List.eq_nil_of_length_eq_zero (Nat.le_zero.mp hlen)
    subst hs
    unfold firstMatch at hfm
    rw [hnil] at hfm
    simp at hfm
  | succ n ih =>
    intro s g r hlen hfm
    cases s with
    | nil =>
      unfold firstMatch at hfm
      rw [hnil] at hfm
      simp at hfm
    | cons c t =>
      cases hm : mt (c :: t) with
      | some x =>
        obtain ⟨g', r'⟩ := x
        unfold firstMatch at hfm
        rw [hm] at hfm
        simp at hfm
        rw [reSubF_succ_some mt rep n (c :: t) g' r' hm, ← hfm.1]
        exact strContains_append_self (rep g') (reSubF mt rep n r')
      | none =>
        unfold firstMatch at hfm
        rw [hm] at hfm
        rw [reSubF_succ_none_cons mt rep n c t hm]
        have hlen' : t.length ≤ n := by
          simp at hlen
          omega
        exact strContains_cons_of c _ (rep g) (ih t g r hlen' hfm)

theorem add_imports_of_contains (c : List Char)
    (h : strContains c sentinelImport = true) : add_imports c = c := by
  unfold add_imports
  rw [h]
  simp

theorem migrate_file_skip (path c : List Char) (h : needs_migration c = false) :
    migrate_file path c = (false, c) := by
  unfold migrate_file
  split
  · rfl
  · rw [h]
    simp

/-! ### Claims -/

/-- C1 (counterexample): the full migration step is not idempotent.  On the
content `Either[String,Left(x)` at a default-category path, the first run
wraps the failure value but leaves the legacy substring `Either[String,`
behind, so the second run matches the rewritten `Left(...)` again, changes
the content once more, and performs a write. -/
theorem C1_counterexample :
    (migrate_file "Foo.scala".data
        (migrate_file "Foo.scala".data "Either[String,Left(x)".data).2).1 = true ∧
    (migrate_file "Foo.scala".data
        (migrate_file "Foo.scala".data "Either[String,Left(x)".data).2).2 ≠
      (migrate_file "Foo.scala".data "Either[String,Left(x)".data).2 := by
  decide

/-- C1 (amended): the second run of `migrate_file` is a no-op (returns
`false`, performs no write) whenever the first run's output no longer
contains either legacy pattern substring, i.e. whenever the classifier
finds nothing on the second pass -- which is the mechanism the spec
describes, but which does not hold for every input. -/
theorem C1_second_run_noop (path content : List Char)
    (h : needs_migration (migrate_file path content).2 = false) :
    migrate_file path (migrate_file path content).2 =
      (false, (migrate_file path content).2) :=
  migrate_file_skip path (migrate_file path content).2 h

theorem C1_second_run_noop_witness :
    needs_migration
      (migrate_file "B.scala".data "y: Either[String, Int] = Left(e)".data).2 = false ∧
    migrate_file "B.scala".data
        (migrate_file "B.scala".data "y: Either[String, Int] = Left(e)".data).2 =
      (false, (migrate_file "B.scala".data "y: Either[String, Int] = Left(e)".data).2) :=
  ⟨by decide, C1_second_run_noop "B.scala".data "y: Either[String, Int] = Left(e)".data (by decide)⟩

/-- C2 (counterexample): content containing the two-argument
success/string-failure signature for which the rewritten content still
contains the legacy pattern, because the captured success-type group of the
single match itself contains legacy-pattern text that reappears in the
output. -/
theorem C2_counterexample :
    hasMatch (matchEitherAt eitherStrLit)
      "x: Either[String, : Either[String, Int]".data = true ∧
    hasMatch (matchEitherAt eitherStrLit)
      (migrateContent "X.scala".data "x: Either[String, : Either[String, Int]".data) = true := by
  decide

/-- C2 (amended): for any content in which the two-argument
success/string-failure signature matches, the rewritten content contains the
unified signature `: SzorkResult[T]` with the first match's captured
success-type parameter `T` preserved verbatim.  (The original pattern may
still occur in the output when a captured group itself contains
legacy-pattern text; the scanner does not rescan replaced text.) -/
theorem C2_first_match_rewritten (s g r : List Char)
    (h : firstMatch (matchEitherAt eitherStrLit) s = some (g, r)) :
    strContains (subEitherStr s) (szorkRepl g) = true := by
  unfold subEitherStr reSub
  exact reSubF_contains_firstMatch (matchEitherAt eitherStrLit) szorkRepl rfl
    s.length s g r (Nat.le_refl s.length) h

theorem C2_first_match_rewritten_witness :
    firstMatch (matchEitherAt eitherStrLit) "x: Either[String, Int] rest".data =
      some ("Int".data, " rest".data) ∧
    strContains (subEitherStr "x: Either[String, Int] rest".data)
      (szorkRepl "Int".data) = true :=
  ⟨by decide, C2_first_match_rewritten "x: Either[String, Int] rest".data
    "Int".data " rest".data (by decide)⟩

/-- C3 (counterexample): a path whose lowercased form contains both `parse`
and `network` but also `save`; the first-match-wins chain picks the
persistence rule, so the parse rule is not applied, contradicting the claim
that the parse rule is applied to every such file. -/
theorem C3_counterexample :
    strContains ("save/parsenetwork.scala".data.map Char.toLower) "parse".data = true ∧
    strContains ("save/parsenetwork.scala".data.map Char.toLower) "network".data = true ∧
    classifyPath "save/parsenetwork.scala".data ≠ ErrCat.parsing := by
  decide

/-- C3 (amended): for every path whose lowercased form contains both `parse`
and `network`, the network rule is never applied; the parse rule is applied
provided the path does not also contain one of the higher-priority keywords
`save` or `persistence`; and exactly one rule applies (classification is a
total function into the category type). -/
theorem C3_classify_priority (path : List Char)
    (hp : strContains (path.map Char.toLower) "parse".data = true)
    (_hn : strContains (path.map Char.toLower) "network".data = true) :
    classifyPath path ≠ ErrCat.network ∧
    (strContains (path.map Char.toLower) "save".data = false →
      strContains (path.map Char.toLower) "persistence".data = false →
      classifyPath path = ErrCat.parsing) ∧
    (∃! c : ErrCat, classifyPath path = c) := by
  refine ⟨?_, ?_, ⟨classifyPath path, rfl, fun y hy => hy.symm⟩⟩
  · unfold classifyPath
    cases h1 : (strContains (path.map Char.toLower) "save".data ||
        strContains (path.map Char.toLower) "persistence".data) with
    | true => simp [h1]
    | false => simp [h1, hp]
  · intro hsv hpe
    unfold classifyPath
    simp [hsv, hpe, hp]

theorem C3_classify_priority_witness :
    strContains ("parse_network.scala".data.map Char.toLower) "parse".data = true ∧
    strContains ("parse_network.scala".data.map Char.toLower) "network".data = true ∧
    (classifyPath "parse_network.scala".data ≠ ErrCat.network ∧
      (strContains ("parse_network.scala".data.map Char.toLower) "save".data = false →
        strContains ("parse_network.scala".data.map Char.toLower) "persistence".data = false →
        classifyPath "parse_network.scala".data = ErrCat.parsing) ∧
      (∃! c : ErrCat, classifyPath "parse_network.scala".data = c)) :=
  ⟨by decide, by decide, C3_classify_priority "parse_network.scala".data (by decide) (by decide)⟩

/-- C4: end-to-end example.  A file at a `persistence` path containing a
pre-existing import line, the legacy signature and a string failure value is
migrated in one step: the two sentinel imports are inserted immediately
after `import foo.Bar`, the signature becomes `SzorkResult[Unit]`, and the
failure expression becomes the persistence-specific two-argument wrapper
with the literal second argument `"operation"`; the file is written
(`migrate_file` returns `true`). -/
theorem C4_end_to_end :
    migrate_file "src/main/scala/persistence/Store.scala".data
        "import foo.Bar\ndef save(x: Int): Either[String, Unit] = Left(\"boom\")".data =
      (true,
        ("import foo.Bar\nimport org.llm4s.szork.error._\nimport org.llm4s.szork.error.ErrorHandling._\ndef save(x: Int): SzorkResult[Unit] = Left(PersistenceError(\"boom\", \"operation\"))").data) := by
  decide

/-- C5: import injection.  If the sentinel import is absent and the last line
beginning with `import ` has index `k`, then the output of `add_imports` is
the original lines with the two new import lines inserted immediately after
line `k`, in the specified two-line order; and running injection again on the
result is a no-op because the sentinel is now present. -/
theorem C5_import_injection (content : List Char) (k : Nat)
    (hs : strContains content sentinelImport = false)
    (hk : lastIdxWith isImportLine (splitNl content) = some k) :
    add_imports content =
      joinNl ((splitNl content).take (k + 1) ++
        sentinelImport :: handlingImport :: (splitNl content).drop (k + 1)) ∧
    add_imports (add_imports content) = add_imports content := by
  have hlt : k < (splitNl content).length :=
    lastIdxWith_lt isImportLine (splitNl content) k hk
  have h1 : add_imports content =
      joinNl ((splitNl content).take (k + 1) ++
        sentinelImport :: handlingImport :: (splitNl content).drop (k + 1)) := by
    unfold add_imports
    rw [hs]
    simp only [Bool.false_eq_true, if_false, hk]
    rw [insertAt_insertAt sentinelImport handlingImport k (splitNl content) hlt]
  refine ⟨h1, ?_⟩
  have hmem : sentinelImport ∈ (splitNl content).take (k + 1) ++
      sentinelImport :: handlingImport :: (splitNl content).drop (k + 1) :=
    List.mem_append_right _ (List.mem_cons_self _ _)
  have hcon : strContains (add_imports content) sentinelImport = true := by
    rw [h1]
    exact strContains_of_mem_joinNl sentinelImport _ hmem
  exact add_imports_of_contains (add_imports content) hcon

theorem C5_import_injection_witness :
    strContains "import foo.Bar\nval x = 1".data sentinelImport = false ∧
    lastIdxWith isImportLine (splitNl "import foo.Bar\nval x = 1".data) = some 0 ∧
    (add_imports "import foo.Bar\nval x = 1".data =
      joinNl ((splitNl "import foo.Bar\nval x = 1".data).take 1 ++
        sentinelImport :: handlingImport ::
          (splitNl "import foo.Bar\nval x = 1".data).drop 1) ∧
     add_imports (add_imports "import foo.Bar\nval x = 1".data) =
       add_imports "import foo.Bar\nval x = 1".data) :=
  ⟨by decide, by decide,
    C5_import_injection "import foo.Bar\nval x = 1".data 0 (by decide) (by decide)⟩

/-- C6: writer contract.  For a file that is not denylisted and that the
classifier marks as needing migration, `migrate_file` performs no write and
reports `false` when the transformed content equals the original, and writes
exactly the transformed content and reports `true` when it differs. -/
theorem C6_writer_contract (path content : List Char)
    (hd : (strContains path denySzorkError || strContains path denyErrorHandling) = false)
    (hn : needs_migration content = true) :
    (migrateContent path content = content → migrate_file path content = (false, content)) ∧
    (migrateContent path content ≠ content →
      migrate_file path content = (true, migrateContent path content)) := by
  constructor
  · intro he
    unfold migrate_file
    rw [hd]
    simp [hn, he]
  · intro he
    unfold migrate_file
    rw [hd]
    simp [hn, he]

theorem C6_writer_contract_witness :
    (strContains "A.scala".data denySzorkError ||
      strContains "A.scala".data denyErrorHandling) = false ∧
    needs_migration "x: Either[String, Int] = Left(e)".data = true ∧
    migrate_file "A.scala".data "x: Either[String, Int] = Left(e)".data =
      (true, migrateContent "A.scala".data "x: Either[String, Int] = Left(e)".data) :=
  ⟨by decide, by decide,
    (C6_writer_contract "A.scala".data "x: Either[String, Int] = Left(e)".data
      (by decide) (by decide)).2 (by decide)⟩

/-- C7: denylist.  A file whose path contains either excluded error-handling
filename is returned unchanged with result `false`, regardless of content. -/
theorem C7_denylist (path content : List Char)
    (h : strContains path denySzorkError = true ∨
      strContains path denyErrorHandling = true) :
    migrate_file path content = (false, content) := by
  unfold migrate_file
  rcases h with h | h <;> rw [h] <;> simp

theorem C7_denylist_witness :
    strContains "src/error/SzorkError.scala".data denySzorkError = true ∧
    migrate_file "src/error/SzorkError.scala".data "x: Either[String, Int]".data =
      (false, "x: Either[String, Int]".data) :=
  ⟨by decide,
    C7_denylist "src/error/SzorkError.scala".data "x: Either[String, Int]".data
      (Or.inl (by decide))⟩

/-- C8 (counterexample): the output of `add_imports` can contain a duplicated
injected import line.  On content consisting of exactly the second injected
line, the sentinel is absent, so both import lines are inserted after it and
the second injected import line then occurs twice. -/
theorem C8_counterexample :
    countSub handlingImport
      (add_imports "import org.llm4s.szork.error.ErrorHandling._".data) = 2 := by
  decide

/-- C8 (amended): after import injection the sentinel import line occurs at
most once in the output, provided it did not occur in the input (the injector
tests only the sentinel, so the second injected line can be duplicated when
it is already present). -/
theorem C8_sentinel_at_most_once (content : List Char)
    (h : strContains content sentinelImport = false) :
    countSub sentinelImport (add_imports content) ≤ 1 := by
  have hp : sentinelImport ≠ [] := by decide
  have hnl : '\n' ∉ sentinelImport := by decide
  have hzero : ((splitNl content).map (countSub sentinelImport)).sum = 0 := by
    have hj := countSub_joinNl sentinelImport hp hnl (splitNl content)
    rw [joinNl_splitNl] at hj
    rw [← hj]
    exact countSub_eq_zero sentinelImport content h
  have hself : countSub sentinelImport sentinelImport = 1 := by decide
  have hother : countSub sentinelImport handlingImport = 0 := by decide
  have hempty : countSub sentinelImport [] = 0 := by decide
  unfold add_imports
  rw [h]
  simp only [Bool.false_eq_true, if_false]
  cases hk : lastIdxWith isImportLine (splitNl content) with
  | some k =>
    rw [countSub_joinNl sentinelImport hp hnl, map_sum_insertAt, map_sum_insertAt,
        hzero, hself, hother]
  | none =>
    cases hpk : firstIdxWith isPackageLine (splitNl content) with
    | some i =>
      rw [countSub_joinNl sentinelImport hp hnl, map_sum_insertAt, map_sum_insertAt,
          map_sum_insertAt, hzero, hself, hother, hempty]
    | none =>
      rw [countSub_joinNl sentinelImport hp hnl, hzero]
      exact Nat.zero_le 1

theorem C8_sentinel_at_most_once_witness :
    strContains "import a".data sentinelImport = false ∧
    countSub sentinelImport (add_imports "import a".data) ≤ 1 :=
  ⟨by decide, C8_sentinel_at_most_once "import a".data (by decide)⟩

/-- C9 (counterexample): a `Left(...)` whose argument contains nested
parentheses is not skipped by the rewriter: the pattern matches up to the
first closing parenthesis and the expression is transformed, contradicting
the claim that such expressions are matched zero times and left unchanged. -/
theorem C9_counterexample :
    hasMatch matchLeftAt "Left(f(x))".data = true ∧
    subLeft ErrCat.gameState "Left(f(x))".data = "Left(GameStateError(f(x)))".data ∧
    subLeft ErrCat.gameState "Left(f(x))".data ≠ "Left(f(x))".data := by
  decide

/-- C9 (amended): the rewriter never fails loudly: whenever the
failure-wrapping pattern matches zero spans in the content, the substitution
is a no-op and the content is returned unchanged.  (A `Left(...)` with nested
parentheses, however, is matched up to the first closing parenthesis and is
rewritten, not left unchanged.) -/
theorem C9_no_match_noop (cat : ErrCat) (s : List Char)
    (h : hasMatch matchLeftAt s = false) : subLeft cat s = s := by
  unfold subLeft reSub
  exact reSubF_no_match matchLeftAt (leftRepl cat) s.length s h

theorem C9_no_match_noop_witness :
    hasMatch matchLeftAt "no failure here".data = false ∧
    subLeft ErrCat.gameState "no failure here".data = "no failure here".data :=
  ⟨by decide, C9_no_match_noop ErrCat.gameState "no failure here".data (by decide)⟩

/-- C10: implicit fallback of import injection.  When the sentinel import is
absent and the content has no line beginning with `import ` and no line
beginning with `package `, `add_imports` returns the content unchanged. -/
theorem C10_fallback_noop (content : List Char)
    (hs : strContains content sentinelImport = false)
    (hi : ∀ l ∈ splitNl content, isImportLine l = false)
    (hp : ∀ l ∈ splitNl content, isPackageLine l = false) :
    add_imports content = content := by
  unfold add_imports
  rw [hs]
  simp only [Bool.false_eq_true, if_false,
    lastIdxWith_eq_none isImportLine (splitNl content) hi,
    firstIdxWith_eq_none isPackageLine (splitNl content) hp]
  exact joinNl_splitNl content

theorem C10_fallback_noop_witness :
    strContains "object Main".data sentinelImport = false ∧
    (∀ l ∈ splitNl "object Main".data, isImportLine l = false) ∧
    (∀ l ∈ splitNl "object Main".data, isPackageLine l = false) ∧
    add_imports "object Main".data = "object Main".data :=
  ⟨by decide, by decide, by decide,
    C10_fallback_noop "object Main".data (by decide) (by decide) (by decide)⟩
